import Mathlib

/-!
Verification of the sharded dump/import mechanism of `jina/drivers/dump.py`
(class `DumpPersistor`).

Modelling conventions (shallow embedding):
* bytes are `Nat` values (< 256 in every well-formed file; the frame-length
  arithmetic never depends on the bound);
* a file on disk is a `List Nat` of its bytes; a missing file is `none`;
* the ids file is written in text mode; ids are modelled as lists of code
  points, newline is byte 10.  Universal-newline translation of carriage
  returns is not modelled; every theorem about ids excludes byte 13;
* a float64 element of a numpy vector is its 8-byte representation, so a
  vector is a `List (List Nat)` whose members all have length 8;
  `np.ndarray.tobytes` is concatenation and `np.frombuffer(..., float64)`
  is chunking into 8-byte pieces (it raises `ValueError` when the buffer
  length is not a multiple of 8);
* `sys.byteorder` is fixed to little-endian, used consistently by writer
  and reader exactly as the code does;
* Python `int.to_bytes(k, ...)` raises `OverflowError` when the integer
  does not fit in `k` bytes; this is modelled by `pyToBytes`;
* generators are modelled by total functions from the file contents to the
  full list of yielded elements, wrapped in `Except` for the exceptions a
  pull can raise; the laziness of `import_vectors` / `import_metas`
  (no file access before the first pull) is modelled by having them return
  pure descriptors (`GenDescr`) that are only later run against a
  directory state.
-/

deriving instance DecidableEq for Except

/-- Constant `BYTE_PADDING` from `dump.py` (line 151): width of the frame length
prefix in bytes. -/
def BYTE_PADDING : Nat := 4

/-- The kinds of files inside one shard directory. -/
inductive FileKind
  | idsF
  | vectorsF
  | metasF
deriving DecidableEq

/-- The exceptions the modelled code can raise. -/
inductive DumpErr
  | pathExists
  | zeroDivision
  | stopIteration
  | overflowError
  | valueError
  | fileNotFound (k : FileKind)
deriving DecidableEq

/-- Little-endian base-256 digits of `n`, padded/truncated to exactly `k`
bytes (the digit list Python's `int.to_bytes(k, 'little')` produces when it
does not overflow). -/
def leDigits : Nat → Nat → List Nat
  | 0, _ => []
  | k + 1, n => n % 256 :: leDigits k (n / 256)

/-- Python `n.to_bytes(k, sys.byteorder)`: the `k` little-endian bytes of
`n`, or `OverflowError` when `n` needs more than `k` bytes. -/
def pyToBytes (k n : Nat) : Except DumpErr (List Nat) :=
  if n < 256 ^ k then .ok (leDigits k n) else .error .overflowError

/-- Python `int.from_bytes(bs, sys.byteorder)` (little-endian); on the
empty byte string it returns 0, exactly as in `_vecs_gen`/`_metas_gen`
when the file is exhausted. -/
def fromBytesLE (bs : List Nat) : Nat :=
  bs.foldr (fun b a => b + 256 * a) 0

/-- One record of the dump: `(id, vector, metadata)`.  The vector is a list
of float64 elements, each one its 8-byte representation. -/
structure Triple where
  id : List Nat
  vec : List (List Nat)
  meta : List Nat
deriving DecidableEq

/-- Function `np.ndarray.tobytes` on a float64 vector: concatenation of the 8-byte
elements. -/
def tobytes (v : List (List Nat)) : List Nat := v.flatten

/-- The three files `export_dump_streaming` writes for one shard
(`_get_file_handlers`, lines 143-148). -/
structure ShardFiles where
  ids : List Nat
  vectors : List Nat
  metas : List Nat
deriving DecidableEq

/-- The frame writer inlined in `export_dump_streaming` (lines 73-77):
`len(payload).to_bytes(BYTE_PADDING, sys.byteorder) + payload`. -/
def encodeFrame (payload : List Nat) : Except DumpErr (List Nat) :=
  (pyToBytes BYTE_PADDING payload.length).map (· ++ payload)

/-- The inner `while shard_written < size_this_shard` loop of
`export_dump_streaming` (lines 71-79): pull `n` records from `data`,
appending the vector frame, the meta frame and the id line to the three
file buffers.  Returns the error (if any), the files written so far, and
the unconsumed rest of `data`.  `next` on an exhausted source raises
`StopIteration`; an oversized length raises `OverflowError` after the
writes that precede it in program order (vectors, then metas, then ids). -/
def writeShard : Nat → List Triple → ShardFiles → Option DumpErr × ShardFiles × List Triple
  | 0, data, acc => (none, acc, data)
  | _ + 1, [], acc => (some .stopIteration, acc, [])
  | n + 1, t :: rest, acc =>
    match encodeFrame (tobytes t.vec) with
    | .error e => (some e, acc, rest)
    | .ok vf =>
      match encodeFrame t.meta with
      | .error e => (some e, ⟨acc.ids, acc.vectors ++ vf, acc.metas⟩, rest)
      | .ok mf =>
        writeShard n rest ⟨acc.ids ++ t.id ++ [10], acc.vectors ++ vf, acc.metas ++ mf⟩

/-- Computation of `size_this_shard` (lines 63-66): the last shard (`shard_range[-1]`,
i.e. index `shards - 1`) receives `size // shards + size % shards`
records, every other shard `size // shards`. -/
def sizeThisShard (shards size i : Nat) : Nat :=
  if i = shards - 1 then size / shards + size % shards else size / shards

/-- The `for shard_id in shard_range` loop of `export_dump_streaming`
(lines 62-82), over the remaining shard indices. -/
def exportShards (shards size : Nat) :
    List Nat → List Triple → List ShardFiles → Option DumpErr × List ShardFiles × List Triple
  | [], data, acc => (none, acc, data)
  | i :: rest, data, acc =>
    match writeShard (sizeThisShard shards size i) data ⟨[], [], []⟩ with
    | (none, sf, data2) => exportShards shards size rest data2 (acc ++ [sf])
    | (some e, sf, data2) => (some e, acc ++ [sf], data2)

/-- The observable outcome of one `export_dump_streaming` call: the raised
exception (if any), the shard directories created (in index order, each
with its three files, possibly partially written), and the state of the
shared data cursor after the call. -/
structure ExportOutcome where
  err : Option DumpErr
  written : List ShardFiles
  remaining : List Triple
deriving DecidableEq

/-- Model of `DumpPersistor.export_dump_streaming` (lines 44-82).
`pathAlreadyExists` models `os.path.exists(path)`; when it is true the
function raises before creating any directory, writing any file, or
pulling any record.  `shards = 0` raises `ZeroDivisionError` at
`size // shards` (line 59), still before any write. -/
def exportDumpStreaming (pathAlreadyExists : Bool) (shards size : Nat)
    (data : List Triple) : ExportOutcome :=
  if pathAlreadyExists then ⟨some .pathExists, [], data⟩
  else if shards = 0 then ⟨some .zeroDivision, [], data⟩
  else
    let r := exportShards shards size (List.range shards) data []
    ⟨r.1, r.2.1, r.2.2⟩

/-- The code points Python's `str.isspace()` accepts — the exact set
`str.strip()` (no arguments) removes: `\t\n\v\f\r` (9-13), the
information separators `\x1c`-`\x1f` (28-31), space (32), next line
`\x85` (133), no-break space `\xa0` (160), Ogham space mark (5760), the
Unicode space separators U+2000-U+200A (8192-8202), line and paragraph
separators U+2028/U+2029 (8232/8233), narrow no-break space U+202F
(8239), medium mathematical space U+205F (8287) and ideographic space
U+3000 (12288). -/
def isSpaceByte (b : Nat) : Bool :=
  decide ((9 ≤ b ∧ b ≤ 13) ∨ (28 ≤ b ∧ b ≤ 32) ∨ b = 133 ∨ b = 160 ∨
    b = 5760 ∨ (8192 ≤ b ∧ b ≤ 8202) ∨ b = 8232 ∨ b = 8233 ∨ b = 8239 ∨
    b = 8287 ∨ b = 12288)

/-- Python `str.strip()`: remove leading and trailing whitespace. -/
def pyStrip (l : List Nat) : List Nat :=
  ((l.dropWhile isSpaceByte).reverse.dropWhile isSpaceByte).reverse

/-- Helper for `splitLines`; `acc` holds the current line, reversed. -/
def splitLinesGo : List Nat → List Nat → List (List Nat)
  | acc, [] => if acc = [] then [] else [acc.reverse]
  | acc, b :: rest =>
    if b = 10 then (acc.reverse ++ [10]) :: splitLinesGo [] rest
    else splitLinesGo (b :: acc) rest

/-- Iterating a Python text file (`for l in ids_fh`, line 113): the lines
of the content, each including its terminating newline; a final unfinished
line is yielded without one. -/
def splitLines (content : List Nat) : List (List Nat) :=
  splitLinesGo [] content

/-- Fuel-indexed chunking used to model `np.frombuffer`; the fuel only
serves structural recursion and is irrelevant once it is at least the
list length. -/
def chunksOfF : Nat → Nat → List Nat → List (List Nat)
  | 0, _, _ => []
  | fuel + 1, n, l =>
    if l = [] ∨ n = 0 then [] else l.take n :: chunksOfF fuel n (l.drop n)

/-- Split a byte list into consecutive chunks of `n` bytes (the last chunk
may be shorter). -/
def chunksOf (n : Nat) (l : List Nat) : List (List Nat) :=
  chunksOfF l.length n l

/-- Model of `np.frombuffer(buf, dtype=np.float64)` (lines 123-126): reinterpret the
buffer as float64 elements; raises `ValueError` when the buffer length is
not a multiple of the 8-byte element size. -/
def frombufferF64 (b : List Nat) : Except DumpErr (List (List Nat)) :=
  if b.length % 8 = 0 then .ok (chunksOf 8 b) else .error .valueError

/-- Fuel-indexed body of the `while True` loop of `_vecs_gen`
(lines 117-129); the fuel is irrelevant once it is at least the number of
remaining bytes. -/
def vecsLoopF : Nat → List Nat → Except DumpErr (List (List (List Nat)))
  | 0, _ => .ok []
  | fuel + 1, bs =>
    let nextSize := fromBytesLE (bs.take BYTE_PADDING)
    if nextSize = 0 then .ok []
    else
      match frombufferF64 ((bs.drop BYTE_PADDING).take nextSize) with
      | .error e => .error e
      | .ok vec =>
        match vecsLoopF fuel ((bs.drop BYTE_PADDING).drop nextSize) with
        | .ok vs => .ok (vec :: vs)
        | .error e => .error e

/-- Model of `DumpPersistor._vecs_gen` run to exhaustion on the contents of a
`vectors` file: read a `BYTE_PADDING`-byte length prefix (a short or empty
read still converts via `int.from_bytes`); stop on a zero length;
otherwise read that many bytes (possibly fewer at end of file) and
reinterpret them as float64. -/
def vecsLoop (bs : List Nat) : Except DumpErr (List (List (List Nat))) :=
  vecsLoopF bs.length bs

/-- Fuel-indexed body of the `while True` loop of `_metas_gen`
(lines 132-141). -/
def metasLoopF : Nat → List Nat → List (List Nat)
  | 0, _ => []
  | fuel + 1, bs =>
    let nextSize := fromBytesLE (bs.take BYTE_PADDING)
    if nextSize = 0 then []
    else (bs.drop BYTE_PADDING).take nextSize ::
      metasLoopF fuel ((bs.drop BYTE_PADDING).drop nextSize)

/-- Model of `DumpPersistor._metas_gen` run to exhaustion: like `_vecs_gen` but the
payload is yielded as raw bytes, with no length or corruption check of any
kind (`metas_fh.read(next_size)` simply returns what is available). -/
def metasLoop (bs : List Nat) : List (List Nat) :=
  metasLoopF bs.length bs

/-- Pull `DumpPersistor._ids_gen` (lines 111-114) to exhaustion against an
optional `ids` file: opening a missing file raises `FileNotFoundError` on
the first pull; otherwise each line is yielded as `l.strip()`. -/
def runIdsGen : Option (List Nat) → Except DumpErr (List (List Nat))
  | none => .error (.fileNotFound .idsF)
  | some c => .ok ((splitLines c).map pyStrip)

/-- Pull `DumpPersistor._vecs_gen` to exhaustion against an optional
`vectors` file. -/
def runVecsGen : Option (List Nat) → Except DumpErr (List (List (List Nat)))
  | none => .error (.fileNotFound .vectorsF)
  | some c => vecsLoop c

/-- Pull `DumpPersistor._metas_gen` to exhaustion against an optional
`metas` file. -/
def runMetasGen : Option (List Nat) → Except DumpErr (List (List Nat))
  | none => .error (.fileNotFound .metasF)
  | some c => .ok (metasLoop c)

/-- Model of `os.path.join(path, pea_id)` for the simple relative names used here. -/
def pathJoin (p s : List Nat) : List Nat := p ++ [47] ++ s

/-- A generator object as returned (unstarted) by `_ids_gen`, `_vecs_gen`
or `_metas_gen`: it records which file of which shard directory it will
read, and touches no file until first pulled. -/
structure GenDescr where
  kind : FileKind
  dir : List Nat
deriving DecidableEq

/-- Model of `DumpPersistor.import_vectors` (lines 85-95): joins the path, creates
the two generators and returns them; no file is accessed. -/
def importVectors (path peaId : List Nat) : GenDescr × GenDescr :=
  (⟨.idsF, pathJoin path peaId⟩, ⟨.vectorsF, pathJoin path peaId⟩)

/-- Model of `DumpPersistor.import_metas` (lines 97-108). -/
def importMetas (path peaId : List Nat) : GenDescr × GenDescr :=
  (⟨.idsF, pathJoin path peaId⟩, ⟨.metasF, pathJoin path peaId⟩)

/-- One shard directory's on-disk state: each of the three files either
present with its contents or absent. -/
structure ShardDir where
  idsFile : Option (List Nat)
  vectorsFile : Option (List Nat)
  metasFile : Option (List Nat)
deriving DecidableEq

/-- The serialized `ids` line of one record (line 78: `id_ + '\n'`). -/
def idLineBytes (i : List Nat) : List Nat := i ++ [10]

/-- The serialized `vectors` frame of one record (lines 73-76), in the
non-overflowing case. -/
def vecFrameBytes (v : List (List Nat)) : List Nat :=
  leDigits BYTE_PADDING (tobytes v).length ++ tobytes v

/-- The serialized `metas` frame of one record (line 77), in the
non-overflowing case. -/
def metaFrameBytes (m : List Nat) : List Nat :=
  leDigits BYTE_PADDING m.length ++ m

/-- The three files a fully written shard holds when its records are
exactly `ts`: concatenations, over the same list `ts`, of the per-record
id line, vector frame and meta frame. -/
def shardFilesOf (ts : List Triple) : ShardFiles where
  ids := (ts.map (fun t => idLineBytes t.id)).flatten
  vectors := (ts.map (fun t => vecFrameBytes t.vec)).flatten
  metas := (ts.map (fun t => metaFrameBytes t.meta)).flatten

/-- The two frame lengths of a record fit in the 4-byte prefix, so writing
it raises no `OverflowError`. -/
def TripleSizeOk (t : Triple) : Prop :=
  (tobytes t.vec).length < 256 ^ BYTE_PADDING ∧ t.meta.length < 256 ^ BYTE_PADDING

instance (t : Triple) : Decidable (TripleSizeOk t) := by
  unfold TripleSizeOk; infer_instance

/-- Componentwise concatenation of two triples of files: the state of the
three file handles after appending more writes. -/
def sfAppend (a b : ShardFiles) : ShardFiles :=
  ⟨a.ids ++ b.ids, a.vectors ++ b.vectors, a.metas ++ b.metas⟩

/-- A well-formed vector (nonempty, 8-byte elements, in-range frame
length). -/
def VecWF (v : List (List Nat)) : Prop :=
  v ≠ [] ∧ (∀ e ∈ v, e.length = 8) ∧ (tobytes v).length < 256 ^ BYTE_PADDING

instance (v : List (List Nat)) : Decidable (VecWF v) := by
  unfold VecWF
  infer_instance

/-- A well-formed metadata payload (nonempty, in-range frame length). -/
def MetaWF (m : List Nat) : Prop :=
  m ≠ [] ∧ m.length < 256 ^ BYTE_PADDING

instance (m : List Nat) : Decidable (MetaWF m) := by
  unfold MetaWF
  infer_instance

/-- The conditions under which one record survives the dump format intact:
an id that `str.strip` leaves unchanged and that contains no newline or
carriage return, a nonempty vector of 8-byte float64 elements, nonempty
metadata, and frame lengths representable in the 4-byte prefix. -/
def RoundTripWF (t : Triple) : Prop :=
  pyStrip t.id = t.id ∧ (10 : Nat) ∉ t.id ∧ (13 : Nat) ∉ t.id ∧
    VecWF t.vec ∧ MetaWF t.meta

instance (t : Triple) : Decidable (RoundTripWF t) := by
  unfold RoundTripWF
  infer_instance

/-- The conditions under which a record keeps the three per-shard files in
lock-step: the id must not contain a newline (written as the line
terminator) or a carriage return (translated to a newline by Python's
universal-newline read of the ids file), and each binary payload must be
nonempty (a zero length prefix is read back as the end-of-stream
sentinel) with its frame length representable.  Unlike `RoundTripWF`,
ids with surrounding whitespace are allowed: they keep the files
parallel, they are merely stripped on import. -/
def ParallelWF (t : Triple) : Prop :=
  (10 : Nat) ∉ t.id ∧ (13 : Nat) ∉ t.id ∧ VecWF t.vec ∧ MetaWF t.meta

instance (t : Triple) : Decidable (ParallelWF t) := by
  unfold ParallelWF
  infer_instance

/-- The per-shard record counts `export_dump_streaming` plans from
`(shards, size)` (lines 59-66), in shard-index order. -/
def planSizes (shards size : Nat) : List Nat :=
  (List.range shards).map (sizeThisShard shards size)

/-- Cutting the data stream into consecutive slices of the given sizes:
the records each shard receives. -/
def shardSlices : List Nat → List Triple → List (List Triple)
  | [], _ => []
  | n :: rest, data => data.take n :: shardSlices rest (data.drop n)

/-! ### Lemmas about the length-prefix codec -/

theorem length_leDigits : ∀ k n, (leDigits k n).length = k
  | 0, _ => rfl
  | k + 1, n => by simp [leDigits, length_leDigits k]

theorem fromBytesLE_nil : fromBytesLE [] = 0 := rfl

theorem fromBytesLE_leDigits : ∀ k n, n < 256 ^ k → fromBytesLE (leDigits k n) = n
  | 0, n, h => by
    interval_cases n
    rfl
  | k + 1, n, h => by
    have hdiv : n / 256 < 256 ^ k := by
      have h256 : (0:Nat) < 256 := by norm_num
      rw [Nat.div_lt_iff_lt_mul h256]
      calc n < 256 ^ (k + 1) := h
        _ = 256 ^ k * 256 := by ring
    have ih := fromBytesLE_leDigits k (n / 256) hdiv
    simp only [leDigits, fromBytesLE, List.foldr_cons] at *
    rw [ih]
    exact Nat.mod_add_div n 256

theorem pyToBytes_ok {k n : Nat} (h : n < 256 ^ k) :
    pyToBytes k n = .ok (leDigits k n) := by
  simp [pyToBytes, h]

theorem encodeFrame_ok {payload : List Nat}
    (h : payload.length < 256 ^ BYTE_PADDING) :
    encodeFrame payload = .ok (leDigits BYTE_PADDING payload.length ++ payload) := by
  simp [encodeFrame, pyToBytes_ok h, Except.map]

/-! ### Lemmas about chunking and the float64 reinterpretation -/

theorem tobytes_length {v : List (List Nat)} (h : ∀ e ∈ v, e.length = 8) :
    (tobytes v).length = 8 * v.length := by
  induction v with
  | nil => rfl
  | cons e t ih =>
    have he : e.length = 8 := h e (by simp)
    have := ih (fun x hx => h x (by simp [hx]))
    simp [tobytes] at this ⊢
    omega

theorem chunksOfF_flatten8 :
    ∀ (fuel : Nat) (v : List (List Nat)), (∀ e ∈ v, e.length = 8) →
      (tobytes v).length ≤ fuel → chunksOfF fuel 8 (tobytes v) = v
  | fuel, [], _, _ => by cases fuel <;> rfl
  | 0, e :: t, h, hf => by
    have he : e.length = 8 := h e (by simp)
    simp only [tobytes, List.flatten_cons, List.length_append, Nat.le_zero] at hf
    omega
  | fuel + 1, e :: t, h, hf => by
    have he : e.length = 8 := h e (by simp)
    have hne : tobytes (e :: t) ≠ [] := by
      simp only [tobytes, List.flatten_cons]
      intro hc
      rw [List.append_eq_nil] at hc
      rw [hc.1] at he
      simp at he
    have hrest : (tobytes t).length ≤ fuel := by
      simp [tobytes] at hf ⊢
      omega
    simp only [chunksOfF, hne, false_or, if_neg, or_false, reduceCtorEq]
    rw [if_neg (by simp [hne])]
    have h1 : (tobytes (e :: t)).take 8 = e := by
      simp only [tobytes, List.flatten_cons]
      exact List.take_left' he
    have h2 : (tobytes (e :: t)).drop 8 = tobytes t := by
      simp only [tobytes, List.flatten_cons]
      exact List.drop_left' he
    rw [h1, h2, chunksOfF_flatten8 fuel t (fun x hx => h x (by simp [hx])) hrest]

theorem chunksOf_flatten8 {v : List (List Nat)} (h : ∀ e ∈ v, e.length = 8) :
    chunksOf 8 (tobytes v) = v :=
  chunksOfF_flatten8 _ v h le_rfl

theorem frombufferF64_flatten8 {v : List (List Nat)} (h : ∀ e ∈ v, e.length = 8) :
    frombufferF64 (tobytes v) = .ok v := by
  have hlen : (tobytes v).length = 8 * v.length := tobytes_length h
  simp [frombufferF64, hlen, Nat.mul_mod_right, chunksOf_flatten8 h]

/-! ### Lemmas about the import loops -/

theorem vecsLoopF_nil : ∀ fuel, vecsLoopF fuel [] = .ok []
  | 0 => rfl
  | _ + 1 => rfl

theorem metasLoopF_nil : ∀ fuel, metasLoopF fuel [] = []
  | 0 => rfl
  | _ + 1 => rfl

theorem vecsLoopF_step (fuel len : Nat) (body rest : List Nat)
    (hbody : body.length = len) (hlen0 : len ≠ 0) (hlt : len < 256 ^ BYTE_PADDING) :
    vecsLoopF (fuel + 1) (leDigits BYTE_PADDING len ++ (body ++ rest)) =
      match frombufferF64 body with
      | .error e => .error e
      | .ok vec =>
        match vecsLoopF fuel rest with
        | .ok vs => .ok (vec :: vs)
        | .error e => .error e := by
  simp only [vecsLoopF]
  rw [List.take_left' (length_leDigits _ _), fromBytesLE_leDigits _ _ hlt,
    if_neg hlen0, List.drop_left' (length_leDigits _ _),
    List.take_left' hbody, List.drop_left' hbody]

theorem metasLoopF_step (fuel len : Nat) (body rest : List Nat)
    (hbody : body.length = len) (hlen0 : len ≠ 0) (hlt : len < 256 ^ BYTE_PADDING) :
    metasLoopF (fuel + 1) (leDigits BYTE_PADDING len ++ (body ++ rest)) =
      body :: metasLoopF fuel rest := by
  simp only [metasLoopF]
  rw [List.take_left' (length_leDigits _ _), fromBytesLE_leDigits _ _ hlt,
    if_neg hlen0, List.drop_left' (length_leDigits _ _),
    List.take_left' hbody, List.drop_left' hbody]

theorem length_vecFrameBytes (v : List (List Nat)) :
    (vecFrameBytes v).length = BYTE_PADDING + (tobytes v).length := by
  simp [vecFrameBytes, length_leDigits]

theorem length_metaFrameBytes (m : List Nat) :
    (metaFrameBytes m).length = BYTE_PADDING + m.length := by
  simp [metaFrameBytes, length_leDigits]

theorem VecWF.len_ne_zero {v : List (List Nat)} (h : VecWF v) :
    (tobytes v).length ≠ 0 := by
  obtain ⟨hne, h8, -⟩ := h
  rcases v with - | ⟨e, t⟩
  · simp at hne
  · have he : e.length = 8 := h8 e (by simp)
    simp [tobytes]
    intro hc
    rw [hc] at he
    simp at he

theorem vecsLoopF_frames :
    ∀ (fuel : Nat) (ts : List Triple), (∀ t ∈ ts, VecWF t.vec) →
      ((ts.map fun t => vecFrameBytes t.vec).flatten).length ≤ fuel →
      vecsLoopF fuel ((ts.map fun t => vecFrameBytes t.vec).flatten) =
        .ok (ts.map fun t => t.vec)
  | fuel, [], _, _ => by simpa using vecsLoopF_nil fuel
  | 0, t :: rest, h, hf => by
    exfalso
    simp only [List.map_cons, List.flatten_cons, List.length_append,
      length_vecFrameBytes, BYTE_PADDING, Nat.le_zero] at hf
    omega
  | fuel + 1, t :: rest, h, hf => by
    have hw := h t (by simp)
    have hfile : ((t :: rest).map fun t => vecFrameBytes t.vec).flatten =
        leDigits BYTE_PADDING (tobytes t.vec).length ++
          (tobytes t.vec ++ (rest.map fun t => vecFrameBytes t.vec).flatten) := by
      simp [vecFrameBytes, List.append_assoc]
    rw [hfile, vecsLoopF_step fuel _ _ _ rfl hw.len_ne_zero hw.2.2,
      frombufferF64_flatten8 hw.2.1,
      vecsLoopF_frames fuel rest (fun x hx => h x (by simp [hx])) ?dec]
    · simp
    case dec =>
      rw [hfile] at hf
      simp only [List.length_append, length_leDigits, BYTE_PADDING] at hf
      omega

theorem vecsLoop_frames {ts : List Triple} (h : ∀ t ∈ ts, VecWF t.vec) :
    vecsLoop ((ts.map fun t => vecFrameBytes t.vec).flatten) =
      .ok (ts.map fun t => t.vec) :=
  vecsLoopF_frames _ ts h le_rfl

theorem metasLoopF_frames :
    ∀ (fuel : Nat) (ts : List Triple), (∀ t ∈ ts, MetaWF t.meta) →
      ((ts.map fun t => metaFrameBytes t.meta).flatten).length ≤ fuel →
      metasLoopF fuel ((ts.map fun t => metaFrameBytes t.meta).flatten) =
        ts.map fun t => t.meta
  | fuel, [], _, _ => by simpa using metasLoopF_nil fuel
  | 0, t :: rest, h, hf => by
    exfalso
    simp only [List.map_cons, List.flatten_cons, List.length_append,
      length_metaFrameBytes, BYTE_PADDING, Nat.le_zero] at hf
    omega
  | fuel + 1, t :: rest, h, hf => by
    have hw := h t (by simp)
    have hm0 : t.meta.length ≠ 0 := by
      intro hc
      exact hw.1 (List.eq_nil_of_length_eq_zero hc)
    have hfile : ((t :: rest).map fun t => metaFrameBytes t.meta).flatten =
        leDigits BYTE_PADDING t.meta.length ++
          (t.meta ++ (rest.map fun t => metaFrameBytes t.meta).flatten) := by
      simp [metaFrameBytes, List.append_assoc]
    rw [hfile, metasLoopF_step fuel _ _ _ rfl hm0 hw.2,
      metasLoopF_frames fuel rest (fun x hx => h x (by simp [hx])) ?dec]
    · simp
    case dec =>
      rw [hfile] at hf
      simp only [List.length_append, length_leDigits, BYTE_PADDING] at hf
      omega

theorem metasLoop_frames {ts : List Triple} (h : ∀ t ∈ ts, MetaWF t.meta) :
    metasLoop ((ts.map fun t => metaFrameBytes t.meta).flatten) =
      ts.map fun t => t.meta :=
  metasLoopF_frames _ ts h le_rfl

/-! ### Lemmas about the ids file: line splitting and `str.strip` -/

theorem splitLinesGo_line :
    ∀ (idb acc rest : List Nat), (10 : Nat) ∉ idb →
      splitLinesGo acc (idb ++ 10 :: rest) =
        ((acc.reverse ++ idb) ++ [10]) :: splitLinesGo [] rest
  | [], acc, rest, _ => by simp [splitLinesGo]
  | b :: bs, acc, rest, h => by
    have hb : b ≠ 10 := by
      intro hc
      exact h (by simp [hc])
    have ih := splitLinesGo_line bs (b :: acc) rest (fun hc => h (by simp [hc]))
    show splitLinesGo acc ((b :: bs) ++ 10 :: rest) = _
    rw [List.cons_append]
    simp only [splitLinesGo]
    rw [if_neg hb, ih]
    simp

theorem splitLines_cons_line {idb rest : List Nat} (h : (10 : Nat) ∉ idb) :
    splitLines (idLineBytes idb ++ rest) = (idb ++ [10]) :: splitLines rest := by
  have heq : idLineBytes idb ++ rest = idb ++ 10 :: rest := by
    simp [idLineBytes]
  rw [splitLines, heq, splitLinesGo_line idb [] rest h]
  simp [splitLines]

theorem splitLines_nil : splitLines [] = [] := rfl

theorem dropWhile_append_spaces {pre l : List Nat}
    (h : ∀ b ∈ pre, isSpaceByte b = true) :
    (pre ++ l).dropWhile isSpaceByte = l.dropWhile isSpaceByte := by
  induction pre with
  | nil => rfl
  | cons b t ih =>
    have hb : isSpaceByte b = true := h b (by simp)
    simp [List.dropWhile_cons, hb, ih (fun x hx => h x (by simp [hx]))]

theorem pyStrip_parts {core : List Nat} (h : pyStrip core = core) :
    core.dropWhile isSpaceByte = core ∧
      core.reverse.dropWhile isSpaceByte = core.reverse := by
  have hA : core.dropWhile isSpaceByte <:+ core := List.dropWhile_suffix _
  have hB : (core.dropWhile isSpaceByte).reverse.dropWhile isSpaceByte <:+
      (core.dropWhile isSpaceByte).reverse := List.dropWhile_suffix _
  have hlenB :
      ((core.dropWhile isSpaceByte).reverse.dropWhile isSpaceByte).length =
        core.length := by
    have := congrArg List.length h
    simpa [pyStrip] using this
  have hlenAle : (core.dropWhile isSpaceByte).length ≤ core.length :=
    hA.sublist.length_le
  have hlenBle :
      ((core.dropWhile isSpaceByte).reverse.dropWhile isSpaceByte).length ≤
        (core.dropWhile isSpaceByte).length := by
    simpa using hB.sublist.length_le
  have hAeq : core.dropWhile isSpaceByte = core :=
    hA.sublist.eq_of_length (by omega)
  refine ⟨hAeq, ?_⟩
  rw [pyStrip, hAeq] at h
  have := congrArg List.reverse h
  simpa using this

theorem pyStrip_sandwich {pre core suf : List Nat}
    (hpre : ∀ b ∈ pre, isSpaceByte b = true)
    (hsuf : ∀ b ∈ suf, isSpaceByte b = true)
    (hcore : pyStrip core = core) :
    pyStrip (pre ++ core ++ suf) = core := by
  obtain ⟨h1, h2⟩ := pyStrip_parts hcore
  rw [pyStrip, List.append_assoc, dropWhile_append_spaces hpre]
  rcases core with - | ⟨c, t⟩
  · simp only [List.nil_append]
    rw [List.dropWhile_eq_nil_iff.mpr hsuf]
    rfl
  · have hc : ¬ isSpaceByte c = true := by
      intro hct
      have hlen := congrArg List.length h1
      rw [List.dropWhile_cons, if_pos hct] at hlen
      have := (List.dropWhile_suffix (l := t) isSpaceByte).sublist.length_le
      simp at hlen
      omega
    have hstep : List.dropWhile isSpaceByte ((c :: t) ++ suf) = (c :: t) ++ suf := by
      rw [List.cons_append, List.dropWhile_cons, if_neg hc]
    rw [hstep, List.reverse_append,
      dropWhile_append_spaces (by intro b hb; exact hsuf b (List.mem_reverse.mp hb)),
      h2]
    simp

theorem pyStrip_line {idb : List Nat} (h : pyStrip idb = idb) :
    pyStrip (idb ++ [10]) = idb := by
  have := @pyStrip_sandwich [] idb [10]
    (by simp) (by intro b hb; simp at hb; subst hb; rfl) h
  simpa using this

theorem idsFile_decode :
    ∀ ts : List Triple, (∀ t ∈ ts, pyStrip t.id = t.id ∧ (10 : Nat) ∉ t.id) →
      (splitLines ((ts.map fun t => idLineBytes t.id).flatten)).map pyStrip =
        ts.map fun t => t.id
  | [], _ => rfl
  | t :: rest, h => by
    obtain ⟨hstrip, hnl⟩ := h t (by simp)
    have ih := idsFile_decode rest (fun x hx => h x (by simp [hx]))
    simp only [List.map_cons, List.flatten_cons]
    rw [splitLines_cons_line hnl]
    simp only [List.map_cons, ih, pyStrip_line hstrip]

/-! ### Lemmas about the export loops -/

theorem sfAppend_nil_left (x : ShardFiles) : sfAppend ⟨[], [], []⟩ x = x := rfl

theorem writeShard_ok :
    ∀ (n : Nat) (data : List Triple) (acc : ShardFiles),
      n ≤ data.length → (∀ t ∈ data.take n, TripleSizeOk t) →
      writeShard n data acc =
        (none, sfAppend acc (shardFilesOf (data.take n)), data.drop n)
  | 0, data, acc, _, _ => by simp [writeShard, shardFilesOf, sfAppend]
  | n + 1, [], acc, hlen, _ => by simp at hlen
  | n + 1, t :: rest, acc, hlen, hwf => by
    have hok : TripleSizeOk t := hwf t (by simp)
    have ih := writeShard_ok n rest
      ⟨acc.ids ++ t.id ++ [10], acc.vectors ++ vecFrameBytes t.vec,
        acc.metas ++ metaFrameBytes t.meta⟩
      (by simp at hlen ⊢; omega)
      (by
        intro x hx
        exact hwf x (by simp [hx]))
    simp only [writeShard, encodeFrame_ok hok.1, encodeFrame_ok hok.2]
    rw [show leDigits BYTE_PADDING (tobytes t.vec).length ++ tobytes t.vec =
        vecFrameBytes t.vec from rfl,
      show leDigits BYTE_PADDING t.meta.length ++ t.meta = metaFrameBytes t.meta from rfl,
      ih]
    simp [shardFilesOf, sfAppend, idLineBytes, List.append_assoc]

theorem exportShards_ok (shards size : Nat) :
    ∀ (idxs : List Nat) (data : List Triple) (acc : List ShardFiles),
      (idxs.map (sizeThisShard shards size)).sum ≤ data.length →
      (∀ t ∈ data.take (idxs.map (sizeThisShard shards size)).sum, TripleSizeOk t) →
      exportShards shards size idxs data acc =
        (none,
          acc ++ (shardSlices (idxs.map (sizeThisShard shards size)) data).map shardFilesOf,
          data.drop (idxs.map (sizeThisShard shards size)).sum)
  | [], data, acc, _, _ => by simp [exportShards, shardSlices]
  | i :: rest, data, acc, hlen, hwf => by
    set s := sizeThisShard shards size i with hs
    set rsum := (rest.map (sizeThisShard shards size)).sum with hrsum
    have hsum : (((i :: rest).map (sizeThisShard shards size)).sum : Nat) = s + rsum := by
      simp [hs, hrsum]
    rw [hsum] at hlen hwf
    have hws := writeShard_ok s data ⟨[], [], []⟩ (by omega)
      (by
        intro x hx
        apply hwf x
        have : data.take s = (data.take (s + rsum)).take s := by
          rw [List.take_take, Nat.min_def, if_pos (by omega)]
        exact List.take_subset _ _ (this ▸ hx))
    rw [sfAppend_nil_left] at hws
    have ih := exportShards_ok shards size rest (data.drop s)
      (acc ++ [shardFilesOf (data.take s)])
      (by simp; omega)
      (by
        intro x hx
        apply hwf x
        rw [List.take_drop] at hx
        exact List.drop_subset _ _ hx)
    simp only [exportShards, hws]
    rw [ih]
    simp only [shardSlices, List.map_cons, List.drop_drop, List.sum_cons, ← hs,
      List.append_assoc, List.singleton_append]

theorem planSizes_sum {shards : Nat} (size : Nat) (h : 1 ≤ shards) :
    (planSizes shards size).sum = size := by
  obtain ⟨s, rfl⟩ : ∃ s, shards = s + 1 := ⟨shards - 1, by omega⟩
  have hsum0 : ((List.range s).map (sizeThisShard (s + 1) size)).sum =
      s * (size / (s + 1)) := by
    rw [List.sum_eq_card_nsmul _ (size / (s + 1)) ?he]
    · simp [mul_comm]
    case he =>
      intro b hb
      obtain ⟨i, hi, rfl⟩ := List.mem_map.mp hb
      have : i < s := List.mem_range.mp hi
      rw [sizeThisShard, if_neg (by omega)]
  rw [planSizes, List.range_succ, List.map_append, List.sum_append, hsum0]
  have hlast : sizeThisShard (s + 1) size s = size / (s + 1) + size % (s + 1) := by
    rw [sizeThisShard, if_pos (by omega)]
  simp only [List.map_cons, List.map_nil, hlast, List.sum_cons, List.sum_nil]
  have hdm := Nat.div_add_mod size (s + 1)
  have hmul : (s + 1) * (size / (s + 1)) = s * (size / (s + 1)) + size / (s + 1) := by
    ring
  omega

theorem shardSlices_lengths :
    ∀ (sizes : List Nat) (data : List Triple), sizes.sum ≤ data.length →
      (shardSlices sizes data).map List.length = sizes
  | [], _, _ => rfl
  | n :: rest, data, h => by
    simp only [List.sum_cons] at h
    simp only [shardSlices, List.map_cons]
    rw [List.length_take, Nat.min_def, if_pos (by omega),
      shardSlices_lengths rest (data.drop n) (by simp; omega)]

theorem shardSlices_flatten :
    ∀ (sizes : List Nat) (data : List Triple), sizes.sum ≤ data.length →
      (shardSlices sizes data).flatten = data.take sizes.sum
  | [], _, _ => rfl
  | n :: rest, data, h => by
    simp only [List.sum_cons] at h
    simp only [shardSlices, List.flatten_cons]
    rw [shardSlices_flatten rest (data.drop n) (by simp; omega), ← List.take_add]
    simp

theorem shardSlices_mem :
    ∀ (sizes : List Nat) (data : List Triple) (ts : List Triple) (t : Triple),
      ts ∈ shardSlices sizes data → t ∈ ts → t ∈ data
  | [], _, _, _, hts, _ => by simp [shardSlices] at hts
  | n :: rest, data, ts, t, hts, ht => by
    simp only [shardSlices, List.mem_cons] at hts
    rcases hts with rfl | hts
    · exact List.take_subset _ _ ht
    · exact List.drop_subset _ _ (shardSlices_mem rest (data.drop n) ts t hts ht)

theorem shardSlices_count :
    ∀ (sizes : List Nat) (data : List Triple),
      (shardSlices sizes data).length = sizes.length
  | [], _ => rfl
  | _ :: rest, data => by
    simp [shardSlices, shardSlices_count rest]

/-- The success case of `export_dump_streaming`: on a fresh path, with at
least `size` records available from the source and every written frame
length in range, the call raises nothing, creates one shard per index in
ascending order whose three files serialize that shard's contiguous slice
of the stream, and consumes exactly `size` records. -/
theorem exportDumpStreaming_ok {shards size : Nat} {data : List Triple}
    (hsh : 1 ≤ shards) (hlen : size ≤ data.length)
    (hwf : ∀ t ∈ data.take size, TripleSizeOk t) :
    exportDumpStreaming false shards size data =
      ⟨none, (shardSlices (planSizes shards size) data).map shardFilesOf,
        data.drop size⟩ := by
  have hsum : (planSizes shards size).sum = size := planSizes_sum size hsh
  have h := exportShards_ok shards size (List.range shards) data []
    (by rw [← planSizes]; omega)
    (by rw [← planSizes, hsum]; exact hwf)
  rw [exportDumpStreaming, if_neg (by simp), if_neg (by omega)]
  rw [← planSizes] at h
  rw [h, hsum]
  simp

/-- Appending whitespace to a string does not change what `str.strip()`
returns. -/
theorem pyStrip_append_spaces {l sufx : List Nat}
    (hs : ∀ b ∈ sufx, isSpaceByte b = true) :
    pyStrip (l ++ sufx) = pyStrip l := by
  rw [pyStrip, pyStrip, List.dropWhile_append]
  rcases hA : l.dropWhile isSpaceByte with - | ⟨a, A⟩
  · rw [List.isEmpty_nil, if_pos rfl, List.dropWhile_eq_nil_iff.mpr hs]
  · rw [List.isEmpty_cons, if_neg (by simp), List.reverse_append,
      dropWhile_append_spaces (fun b hb => hs b (List.mem_reverse.mp hb))]

/-- Iterating a text file written as newline-terminated lines none of
which contains a newline recovers exactly those lines. -/
theorem splitLines_flatten_lines :
    ∀ (lns : List (List Nat)), (∀ l ∈ lns, (10 : Nat) ∉ l) →
      splitLines ((lns.map idLineBytes).flatten) = lns.map fun l => l ++ [10]
  | [], _ => rfl
  | l :: rest, h => by
    simp only [List.map_cons, List.flatten_cons]
    rw [splitLines_cons_line (h l (by simp)),
      splitLines_flatten_lines rest (fun x hx => h x (by simp [hx]))]

/-- Decoding an ids file written from newline-free ids yields each id with
its leading and trailing whitespace stripped (no strip-invariance
assumed). -/
theorem idsFile_decode_strip (ts : List Triple)
    (h : ∀ t ∈ ts, (10 : Nat) ∉ t.id) :
    (splitLines ((ts.map fun t => idLineBytes t.id).flatten)).map pyStrip =
      ts.map fun t => pyStrip t.id := by
  have hcomp : (ts.map fun t => idLineBytes t.id) =
      (ts.map fun t => t.id).map idLineBytes := by
    rw [List.map_map]
    rfl
  have hlines : ∀ l ∈ ts.map fun t => t.id, (10 : Nat) ∉ l := by
    intro l hl
    obtain ⟨t, ht, rfl⟩ := List.mem_map.mp hl
    exact h t ht
  rw [hcomp, splitLines_flatten_lines _ hlines, List.map_map, List.map_map]
  apply List.map_congr_left
  intro t ht
  exact pyStrip_append_spaces (by
    intro b hb
    simp at hb
    subst hb
    decide)

/-! ### Fuel irrelevance and general frame-step lemmas for the decoders -/

theorem metasLoopF_fuel :
    ∀ (f1 : Nat) (bs : List Nat) (f2 : Nat), bs.length ≤ f1 → bs.length ≤ f2 →
      metasLoopF f1 bs = metasLoopF f2 bs
  | 0, bs, f2, h1, _ => by
    have hb : bs = [] := by
      cases bs
      · rfl
      · simp at h1
    subst hb
    rw [metasLoopF_nil, metasLoopF_nil]
  | f1 + 1, bs, f2, h1, h2 => by
    rcases bs with - | ⟨b, t⟩
    · rw [metasLoopF_nil, metasLoopF_nil]
    rcases f2 with - | f2
    · simp at h2
    simp only [metasLoopF]
    by_cases h0 : fromBytesLE ((b :: t).take BYTE_PADDING) = 0
    · rw [if_pos h0, if_pos h0]
    · rw [if_neg h0, if_neg h0]
      have hL : 1 ≤ fromBytesLE ((b :: t).take BYTE_PADDING) := by omega
      congr 1
      apply metasLoopF_fuel
      · simp only [List.length_drop, List.length_cons, BYTE_PADDING]
        simp at h1
        omega
      · simp only [List.length_drop, List.length_cons, BYTE_PADDING]
        simp at h2
        omega

theorem vecsLoopF_fuel :
    ∀ (f1 : Nat) (bs : List Nat) (f2 : Nat), bs.length ≤ f1 → bs.length ≤ f2 →
      vecsLoopF f1 bs = vecsLoopF f2 bs
  | 0, bs, f2, h1, _ => by
    have hb : bs = [] := by
      cases bs
      · rfl
      · simp at h1
    subst hb
    rw [vecsLoopF_nil, vecsLoopF_nil]
  | f1 + 1, bs, f2, h1, h2 => by
    rcases bs with - | ⟨b, t⟩
    · rw [vecsLoopF_nil, vecsLoopF_nil]
    rcases f2 with - | f2
    · simp at h2
    simp only [vecsLoopF]
    by_cases h0 : fromBytesLE ((b :: t).take BYTE_PADDING) = 0
    · rw [if_pos h0, if_pos h0]
    · rw [if_neg h0, if_neg h0]
      have hL : 1 ≤ fromBytesLE ((b :: t).take BYTE_PADDING) := by omega
      have hrec := vecsLoopF_fuel f1
        (((b :: t).drop BYTE_PADDING).drop (fromBytesLE ((b :: t).take BYTE_PADDING))) f2
        (by
          simp only [List.length_drop, List.length_cons, BYTE_PADDING]
          simp at h1
          omega)
        (by
          simp only [List.length_drop, List.length_cons, BYTE_PADDING]
          simp at h2
          omega)
      rw [hrec]

theorem metasLoop_frame {m rest : List Nat} (h0 : m ≠ [])
    (hfit : m.length < 256 ^ BYTE_PADDING) :
    metasLoop (metaFrameBytes m ++ rest) = m :: metasLoop rest := by
  have hm0 : m.length ≠ 0 := fun hc => h0 (List.eq_nil_of_length_eq_zero hc)
  have hassoc : metaFrameBytes m ++ rest =
      leDigits BYTE_PADDING m.length ++ (m ++ rest) := by
    simp [metaFrameBytes, List.append_assoc]
  have hlen : (metaFrameBytes m ++ rest).length =
      (rest.length + m.length + 3) + 1 := by
    simp [length_metaFrameBytes, BYTE_PADDING]
    omega
  rw [metasLoop, hlen, hassoc,
    metasLoopF_step (rest.length + m.length + 3) m.length m rest rfl hm0 hfit,
    metasLoopF_fuel (rest.length + m.length + 3) rest rest.length (by omega) le_rfl]
  rfl

theorem vecsLoop_frame {v : List (List Nat)} {rest : List Nat} (hw : VecWF v) :
    vecsLoop (vecFrameBytes v ++ rest) =
      match vecsLoop rest with
      | .ok vs => .ok (v :: vs)
      | .error e => .error e := by
  have hassoc : vecFrameBytes v ++ rest =
      leDigits BYTE_PADDING (tobytes v).length ++ (tobytes v ++ rest) := by
    simp [vecFrameBytes, List.append_assoc]
  have hlen : (vecFrameBytes v ++ rest).length =
      (rest.length + (tobytes v).length + 3) + 1 := by
    simp [length_vecFrameBytes, BYTE_PADDING]
    omega
  rw [vecsLoop, hlen, hassoc,
    vecsLoopF_step (rest.length + (tobytes v).length + 3) (tobytes v).length
      (tobytes v) rest rfl hw.len_ne_zero hw.2.2,
    frombufferF64_flatten8 hw.2.1,
    vecsLoopF_fuel (rest.length + (tobytes v).length + 3) rest rest.length
      (by omega) le_rfl]
  rfl

theorem metasLoopF_zero_frame (fuel : Nat) (rest : List Nat) :
    metasLoopF (fuel + 1) (leDigits BYTE_PADDING 0 ++ rest) = [] := by
  simp only [metasLoopF]
  rw [List.take_left' (length_leDigits _ _),
    fromBytesLE_leDigits _ _ (by norm_num), if_pos rfl]

/-- A frame whose 4-byte prefix is zero terminates the metas stream no
matter what follows. -/
theorem metasLoop_zero_frame (rest : List Nat) :
    metasLoop (leDigits BYTE_PADDING 0 ++ rest) = [] := by
  have hlen : (leDigits BYTE_PADDING 0 ++ rest).length = (rest.length + 3) + 1 := by
    simp [length_leDigits, BYTE_PADDING]
    omega
  rw [metasLoop, hlen]
  exact metasLoopF_zero_frame _ rest

theorem vecsLoopF_zero_frame (fuel : Nat) (rest : List Nat) :
    vecsLoopF (fuel + 1) (leDigits BYTE_PADDING 0 ++ rest) = .ok [] := by
  simp only [vecsLoopF]
  rw [List.take_left' (length_leDigits _ _),
    fromBytesLE_leDigits _ _ (by norm_num), if_pos rfl]

/-- A frame whose 4-byte prefix is zero terminates the vectors stream no
matter what follows. -/
theorem vecsLoop_zero_frame (rest : List Nat) :
    vecsLoop (leDigits BYTE_PADDING 0 ++ rest) = .ok [] := by
  have hlen : (leDigits BYTE_PADDING 0 ++ rest).length = (rest.length + 3) + 1 := by
    simp [length_leDigits, BYTE_PADDING]
    omega
  rw [vecsLoop, hlen]
  exact vecsLoopF_zero_frame _ rest

/-- Decoding a metas file that starts with the frames of `pre` and
continues with `rest` yields the payloads of `pre` followed by whatever
`rest` decodes to. -/
theorem metasLoop_append_frames :
    ∀ (pre : List Triple) (rest : List Nat), (∀ x ∈ pre, MetaWF x.meta) →
      metasLoop ((pre.map fun x => metaFrameBytes x.meta).flatten ++ rest) =
        (pre.map fun x => x.meta) ++ metasLoop rest
  | [], rest, _ => by simp
  | x :: pre, rest, h => by
    have hw := h x (by simp)
    simp only [List.map_cons, List.flatten_cons, List.append_assoc]
    rw [metasLoop_frame hw.1 hw.2,
      metasLoop_append_frames pre rest (fun y hy => h y (by simp [hy]))]
    simp

/-- Truncated final frame, metas side: a prefix promising `L` bytes with
only `rest` (fewer than `L` bytes) left silently yields `rest` itself. -/
theorem metasLoopF_truncated (fuel L : Nat) (rest : List Nat)
    (h0 : L ≠ 0) (hfit : L < 256 ^ BYTE_PADDING) (hshort : rest.length ≤ L) :
    metasLoopF (fuel + 1) (leDigits BYTE_PADDING L ++ rest) = [rest] := by
  simp only [metasLoopF]
  rw [List.take_left' (length_leDigits _ _), fromBytesLE_leDigits _ _ hfit,
    if_neg h0, List.drop_left' (length_leDigits _ _),
    List.take_of_length_le hshort, List.drop_eq_nil_of_le hshort, metasLoopF_nil]

theorem metasLoop_truncated {L : Nat} {rest : List Nat}
    (h0 : L ≠ 0) (hfit : L < 256 ^ BYTE_PADDING) (hshort : rest.length ≤ L) :
    metasLoop (leDigits BYTE_PADDING L ++ rest) = [rest] := by
  have hlen : (leDigits BYTE_PADDING L ++ rest).length = (rest.length + 3) + 1 := by
    simp [length_leDigits, BYTE_PADDING]
    omega
  rw [metasLoop, hlen]
  exact metasLoopF_truncated _ L rest h0 hfit hshort

/-- Truncated final frame, vectors side: `np.frombuffer` rejects the short
buffer only when its length is not a multiple of 8; otherwise the short
buffer is reinterpreted and yielded. -/
theorem vecsLoopF_truncated (fuel L : Nat) (rest : List Nat)
    (h0 : L ≠ 0) (hfit : L < 256 ^ BYTE_PADDING) (hshort : rest.length ≤ L) :
    vecsLoopF (fuel + 1) (leDigits BYTE_PADDING L ++ rest) =
      if rest.length % 8 = 0 then .ok [chunksOf 8 rest] else .error .valueError := by
  simp only [vecsLoopF]
  rw [List.take_left' (length_leDigits _ _), fromBytesLE_leDigits _ _ hfit,
    if_neg h0, List.drop_left' (length_leDigits _ _),
    List.take_of_length_le hshort, List.drop_eq_nil_of_le hshort]
  by_cases h8 : rest.length % 8 = 0
  · rw [if_pos h8]
    simp only [frombufferF64, if_pos h8, vecsLoopF_nil]
  · rw [if_neg h8]
    simp only [frombufferF64, if_neg h8]

theorem vecsLoop_truncated {L : Nat} {rest : List Nat}
    (h0 : L ≠ 0) (hfit : L < 256 ^ BYTE_PADDING) (hshort : rest.length ≤ L) :
    vecsLoop (leDigits BYTE_PADDING L ++ rest) =
      if rest.length % 8 = 0 then .ok [chunksOf 8 rest] else .error .valueError := by
  have hlen : (leDigits BYTE_PADDING L ++ rest).length = (rest.length + 3) + 1 := by
    simp [length_leDigits, BYTE_PADDING]
    omega
  rw [vecsLoop, hlen]
  exact vecsLoopF_truncated _ L rest h0 hfit hshort

/-- Generator `_vecs_gen` can only raise `ValueError` (besides the not-found error at
open time, which `vecsLoopF` does not model): it never reports a
file-not-found error itself. -/
theorem vecsLoopF_not_found :
    ∀ (fuel : Nat) (bs : List Nat) (k : FileKind),
      vecsLoopF fuel bs ≠ .error (.fileNotFound k)
  | 0, bs, k => by simp [vecsLoopF]
  | fuel + 1, bs, k => by
    simp only [vecsLoopF]
    by_cases h0 : fromBytesLE (bs.take BYTE_PADDING) = 0
    · simp [h0]
    · rw [if_neg h0]
      cases hfb : frombufferF64
          ((bs.drop BYTE_PADDING).take (fromBytesLE (bs.take BYTE_PADDING))) with
      | error e =>
        have he : e = .valueError := by
          rw [frombufferF64] at hfb
          by_cases h8 : ((bs.drop BYTE_PADDING).take
              (fromBytesLE (bs.take BYTE_PADDING))).length % 8 = 0
          · rw [if_pos h8] at hfb
            cases hfb
          · rw [if_neg h8] at hfb
            cases hfb
            rfl
        subst he
        simp
      | ok vec =>
        cases hrec : vecsLoopF fuel
            ((bs.drop BYTE_PADDING).drop (fromBytesLE (bs.take BYTE_PADDING))) with
        | ok vs => simp
        | error e =>
          intro hc
          simp only [Except.error.injEq] at hc
          exact vecsLoopF_not_found fuel
            ((bs.drop BYTE_PADDING).drop (fromBytesLE (bs.take BYTE_PADDING))) k
            (by rw [hrec, hc])

/-! ### Generic helper: `mapM` over a list of shards that all succeed -/

theorem mapM_map_ok {α β γ : Type} {l : List α} {g : α → β}
    {f : β → Except DumpErr γ} {h : α → γ}
    (he : ∀ x ∈ l, f (g x) = .ok (h x)) :
    (l.map g).mapM f = .ok (l.map h) := by
  induction l with
  | nil => rfl
  | cons a t ih =>
    simp only [List.map_cons, List.mapM_cons, he a (by simp),
      ih (fun x hx => he x (by simp [hx]))]
    rfl

/-! ### The shape of the plan and slices when `shard_count > total_size` -/

theorem planSizes_of_lt {shards size : Nat} (h : size < shards) :
    planSizes shards size = List.replicate (shards - 1) 0 ++ [size] := by
  obtain ⟨s, rfl⟩ : ∃ s, shards = s + 1 := ⟨shards - 1, by omega⟩
  have hdiv : size / (s + 1) = 0 := Nat.div_eq_of_lt h
  have hmod : size % (s + 1) = size := Nat.mod_eq_of_lt h
  have hconst : (List.range s).map (sizeThisShard (s + 1) size) =
      List.replicate s 0 := by
    have h1 := List.eq_replicate_of_mem (l := (List.range s).map
      (sizeThisShard (s + 1) size)) (a := (0 : Nat)) ?hm
    · simpa using h1
    case hm =>
      intro b hb
      obtain ⟨i, hi, rfl⟩ := List.mem_map.mp hb
      have : i < s := List.mem_range.mp hi
      rw [sizeThisShard, if_neg (by omega), hdiv]
  rw [planSizes, List.range_succ, List.map_append, hconst]
  simp only [List.map_cons, List.map_nil, Nat.add_sub_cancel]
  rw [sizeThisShard, if_pos (by omega), hdiv, hmod]
  simp

theorem shardSlices_zeros :
    ∀ (k n : Nat) (data : List Triple),
      shardSlices (List.replicate k 0 ++ [n]) data =
        List.replicate k [] ++ [data.take n]
  | 0, n, data => rfl
  | k + 1, n, data => by
    have hsplit : List.replicate (k + 1) 0 ++ [n] =
        (0 : Nat) :: (List.replicate k 0 ++ [n]) := by
      simp [List.replicate_succ]
    rw [hsplit]
    simp only [shardSlices, List.take_zero, List.drop_zero]
    rw [shardSlices_zeros k n data]
    simp [List.replicate_succ]

theorem roundTripWF_sizeOk {t : Triple} (h : RoundTripWF t) : TripleSizeOk t :=
  ⟨h.2.2.2.1.2.2, h.2.2.2.2.2⟩

theorem parallelWF_sizeOk {t : Triple} (h : ParallelWF t) : TripleSizeOk t :=
  ⟨h.2.2.1.2.2, h.2.2.2.2⟩

example : leDigits 4 8 = [8, 0, 0, 0] := by decide
example : fromBytesLE [1, 0, 0, 0] = 1 := by decide
example : fromBytesLE [] = 0 := by decide
example : metasLoop [1, 0, 0, 0] = [[]] := by decide
example : metasLoop [2, 0, 0, 0, 5] = [[5]] := by decide
example : vecsLoop [8, 0, 0, 0, 1, 2, 3, 4, 5, 6, 7, 8] = .ok [[[1,2,3,4,5,6,7,8]]] := by decide
example : vecsLoop [8, 0, 0, 0, 1] = .error .valueError := by decide
example :
    exportDumpStreaming false 2 5
      [⟨[48], [], []⟩, ⟨[49], [], []⟩, ⟨[50], [], []⟩, ⟨[51], [], []⟩, ⟨[52], [], []⟩] =
    ⟨none,
      [⟨[48, 10, 49, 10], [0,0,0,0,0,0,0,0], [0,0,0,0,0,0,0,0]⟩,
       ⟨[50, 10, 51, 10, 52, 10], [0,0,0,0,0,0,0,0,0,0,0,0], [0,0,0,0,0,0,0,0,0,0,0,0]⟩],
      []⟩ := by decide
example : runIdsGen (some [32, 97, 10]) = .ok [[97]] := by decide
example : pyStrip [28, 97] = [97] := by decide
example : pyStrip [160, 97, 133] = [97] := by decide
example : pyStrip [8239, 12288, 97, 9] = [97] := by decide

/-! ## Claim theorems -/

/-- C4 (confirmed): exporting to a path that already exists — be it a file
or an empty directory, `os.path.exists` is true either way — raises the
path-exists error immediately: no shard directory or file is created
(`written = []`) and no record is pulled from the source
(`remaining = data`). -/
theorem c4_conflict_guard (shards size : Nat) (data : List Triple) :
    exportDumpStreaming true shards size data =
      ⟨some .pathExists, [], data⟩ := rfl

/-- C2 (confirmed): for `shard_count ≥ 1` and a source able to supply
`total_size` records with representable frame lengths (so the export
completes), `export_dump_streaming` raises nothing and hands each shard a
contiguous slice whose record count is `size / shards` for every shard but
the last and `size / shards + size % shards` for the last (highest index);
the counts sum to `total_size`. -/
theorem c2_size_distribution {shards size : Nat} {data : List Triple}
    (hsh : 1 ≤ shards) (hlen : size ≤ data.length)
    (hwf : ∀ t ∈ data.take size, TripleSizeOk t) :
    (exportDumpStreaming false shards size data).err = none ∧
    (exportDumpStreaming false shards size data).written =
      (shardSlices (planSizes shards size) data).map shardFilesOf ∧
    (shardSlices (planSizes shards size) data).map List.length =
      planSizes shards size ∧
    (planSizes shards size).sum = size ∧
    (∀ i, i < shards - 1 → sizeThisShard shards size i = size / shards) ∧
    sizeThisShard shards size (shards - 1) = size / shards + size % shards := by
  have hexp := exportDumpStreaming_ok hsh hlen hwf
  have hsum := planSizes_sum size hsh
  refine ⟨by rw [hexp], by rw [hexp], ?_, hsum, ?_, ?_⟩
  · exact shardSlices_lengths _ _ (by rw [hsum]; exact hlen)
  · intro i hi
    rw [sizeThisShard, if_neg (by omega)]
  · rw [sizeThisShard, if_pos rfl]

/-- Witness for `c2_size_distribution`: the spec's concrete scenario
`total_size = 5`, `shard_count = 2` (shard 0 gets 2 records, shard 1 gets
3). -/
theorem c2_size_distribution_witness :
    ((1 : Nat) ≤ 2 ∧ (5 : Nat) ≤ (List.replicate 5 (⟨[120], [], []⟩ : Triple)).length ∧
      ∀ t ∈ (List.replicate 5 (⟨[120], [], []⟩ : Triple)).take 5, TripleSizeOk t) ∧
    ((exportDumpStreaming false 2 5 (List.replicate 5 ⟨[120], [], []⟩)).err = none ∧
      (exportDumpStreaming false 2 5 (List.replicate 5 ⟨[120], [], []⟩)).written =
        (shardSlices (planSizes 2 5) (List.replicate 5 ⟨[120], [], []⟩)).map shardFilesOf ∧
      (shardSlices (planSizes 2 5) (List.replicate 5 ⟨[120], [], []⟩)).map List.length =
        planSizes 2 5 ∧
      (planSizes 2 5).sum = 5 ∧
      (∀ i, i < 2 - 1 → sizeThisShard 2 5 i = 5 / 2) ∧
      sizeThisShard 2 5 (2 - 1) = 5 / 2 + 5 % 2) :=
  ⟨⟨by decide, by decide, by decide⟩,
    c2_size_distribution (by decide) (by decide) (by decide)⟩

/-- C5 counterexample: with `total_size = 1 < 2 = shard_count`, the claim
says every shard of index ≥ 1 has empty files; but the code gives the
*last* shard (index 1, which is ≥ `total_size`) all the records — its
`ids` file imports to one id, not to nothing. -/
theorem c5_zero_shard_counterexample :
    (1 : Nat) < 2 ∧ (1 : Nat) ≤ 1 ∧
    (exportDumpStreaming false 2 1 [⟨[97], [[1, 2, 3, 4, 5, 6, 7, 8]], [5]⟩]).err =
      none ∧
    (exportDumpStreaming false 2 1 [⟨[97], [[1, 2, 3, 4, 5, 6, 7, 8]], [5]⟩]).written.map
        (fun sf => runIdsGen (some sf.ids)) = [.ok [], .ok [[97]]] ∧
    (Except.ok [[97]] : Except DumpErr (List (List Nat))) ≠ .ok [] := by
  refine ⟨by decide, by decide, by decide, by decide, by decide⟩

/-- C5 (amended): when `shard_count > total_size`, every shard **except
the last** (indices `0 .. shard_count - 2`) receives zero records and is
created with empty `ids`/`vectors`/`metas` files, and importing an empty
file yields an empty sequence; the last shard (index `shard_count - 1`)
receives all `total_size` records. -/
theorem c5_zero_shard_amended {shards size : Nat} {data : List Triple}
    (hgt : size < shards) (hlen : data.length = size)
    (hwf : ∀ t ∈ data, TripleSizeOk t) :
    (exportDumpStreaming false shards size data).err = none ∧
    (exportDumpStreaming false shards size data).written =
      List.replicate (shards - 1) ⟨[], [], []⟩ ++ [shardFilesOf data] ∧
    runIdsGen (some []) = .ok [] ∧
    runVecsGen (some []) = .ok [] ∧
    runMetasGen (some []) = .ok [] := by
  have hsh : 1 ≤ shards := by omega
  have hexp := exportDumpStreaming_ok hsh hlen.ge
    (fun t ht => hwf t (List.take_subset _ _ ht))
  refine ⟨by rw [hexp], ?_, by decide, by decide, by decide⟩
  rw [hexp]
  show ((shardSlices (planSizes shards size) data).map shardFilesOf) = _
  rw [planSizes_of_lt hgt, shardSlices_zeros, List.map_append, List.map_replicate]
  have hall : data.take size = data := by
    rw [← hlen, List.take_length]
  rw [hall]
  rfl

/-- Witness for `c5_zero_shard_amended`: `shard_count = 3`,
`total_size = 1`; shards 0 and 1 are empty, shard 2 holds the record. -/
theorem c5_zero_shard_amended_witness :
    ((1 : Nat) < 3 ∧ ([⟨[97], [], [5]⟩] : List Triple).length = 1 ∧
      ∀ t ∈ ([⟨[97], [], [5]⟩] : List Triple), TripleSizeOk t) ∧
    ((exportDumpStreaming false 3 1 [⟨[97], [], [5]⟩]).err = none ∧
      (exportDumpStreaming false 3 1 [⟨[97], [], [5]⟩]).written =
        List.replicate (3 - 1) ⟨[], [], []⟩ ++ [shardFilesOf [⟨[97], [], [5]⟩]] ∧
      runIdsGen (some []) = .ok [] ∧
      runVecsGen (some []) = .ok [] ∧
      runMetasGen (some []) = .ok []) :=
  ⟨⟨by decide, by decide, by decide⟩,
    c5_zero_shard_amended (by decide) (by decide) (by decide)⟩

/-- Helper: flattening per-shard maps is mapping over the flattened
stream. -/
theorem flatten_map_map {α β : Type} (f : α → β) (L : List (List α)) :
    (L.map fun ts => ts.map f).flatten = L.flatten.map f :=
  (List.map_flatten f L).symm

/-- C1 counterexample: the round trip fails as universally stated. A
record whose metadata is the empty byte string is exported as a zero
length prefix, which import reads as the end-of-stream sentinel: importing
every shard and concatenating yields no metadata at all instead of the
original one-element sequence. -/
theorem c1_roundtrip_counterexample :
    (exportDumpStreaming false 1 1 [⟨[97], [[1, 2, 3, 4, 5, 6, 7, 8]], []⟩]).err =
      none ∧
    ((exportDumpStreaming false 1 1 [⟨[97], [[1, 2, 3, 4, 5, 6, 7, 8]], []⟩]).written.mapM
        (fun sf => runMetasGen (some sf.metas))).map List.flatten = .ok [] ∧
    ([⟨[97], [[1, 2, 3, 4, 5, 6, 7, 8]], []⟩] : List Triple).map (fun t => t.meta) =
      [[]] ∧
    (Except.ok ([] : List (List Nat)) : Except DumpErr (List (List Nat))) ≠
      .ok [[]] := by
  refine ⟨by decide, by decide, by decide, by decide⟩

/-- C1 (amended): the round trip holds for every `total_size ≥ 0`,
`shard_count ≥ 1` and list of exactly `total_size` records *provided* each
record is representable in the format: its id is `strip`-invariant and
contains no newline or carriage return, its vector and metadata are
nonempty, and the frame lengths fit the 4-byte prefix. Exporting and then
importing every shard in ascending order and concatenating reproduces the
ids, the vectors element-for-element, and the metadata byte-for-byte. -/
theorem c1_roundtrip_amended {shards size : Nat} {data : List Triple}
    (hsh : 1 ≤ shards) (hsize : data.length = size)
    (hwf : ∀ t ∈ data, RoundTripWF t) :
    (exportDumpStreaming false shards size data).err = none ∧
    ((exportDumpStreaming false shards size data).written.mapM
        (fun sf => runIdsGen (some sf.ids))).map List.flatten =
      .ok (data.map fun t => t.id) ∧
    ((exportDumpStreaming false shards size data).written.mapM
        (fun sf => runVecsGen (some sf.vectors))).map List.flatten =
      .ok (data.map fun t => t.vec) ∧
    ((exportDumpStreaming false shards size data).written.mapM
        (fun sf => runMetasGen (some sf.metas))).map List.flatten =
      .ok (data.map fun t => t.meta) := by
  have hexp := exportDumpStreaming_ok hsh hsize.ge
    (fun t ht => roundTripWF_sizeOk (hwf t (List.take_subset _ _ ht)))
  have hsum := planSizes_sum size hsh
  have hflat : (shardSlices (planSizes shards size) data).flatten = data := by
    rw [shardSlices_flatten _ _ (by rw [hsum]; exact hsize.ge), hsum, ← hsize,
      List.take_length]
  have hmem : ∀ ts ∈ shardSlices (planSizes shards size) data, ∀ t ∈ ts,
      RoundTripWF t := fun ts hts t ht => hwf t (shardSlices_mem _ _ _ _ hts ht)
  have hids : ∀ ts ∈ shardSlices (planSizes shards size) data,
      runIdsGen (some (shardFilesOf ts).ids) = .ok (ts.map fun t => t.id) := by
    intro ts hts
    have hdec := idsFile_decode ts (fun t ht =>
      ⟨(hmem ts hts t ht).1, (hmem ts hts t ht).2.1⟩)
    simp only [runIdsGen, shardFilesOf]
    rw [hdec]
  have hvecs : ∀ ts ∈ shardSlices (planSizes shards size) data,
      runVecsGen (some (shardFilesOf ts).vectors) = .ok (ts.map fun t => t.vec) := by
    intro ts hts
    simp only [runVecsGen, shardFilesOf]
    exact vecsLoop_frames (fun t ht => (hmem ts hts t ht).2.2.2.1)
  have hmetas : ∀ ts ∈ shardSlices (planSizes shards size) data,
      runMetasGen (some (shardFilesOf ts).metas) = .ok (ts.map fun t => t.meta) := by
    intro ts hts
    simp only [runMetasGen, shardFilesOf]
    rw [metasLoop_frames (fun t ht => (hmem ts hts t ht).2.2.2.2)]
  refine ⟨by rw [hexp], ?_, ?_, ?_⟩
  · rw [hexp]
    show Except.map List.flatten
        (List.mapM (fun sf => runIdsGen (some sf.ids))
          (List.map shardFilesOf (shardSlices (planSizes shards size) data))) =
      Except.ok (List.map (fun t => t.id) data)
    rw [@mapM_map_ok (List Triple) ShardFiles (List (List Nat))
        (shardSlices (planSizes shards size) data) shardFilesOf
        (fun sf => runIdsGen (some sf.ids)) (fun ts => ts.map fun t => t.id) hids]
    simp only [Except.map]
    rw [flatten_map_map, hflat]
  · rw [hexp]
    show Except.map List.flatten
        (List.mapM (fun sf => runVecsGen (some sf.vectors))
          (List.map shardFilesOf (shardSlices (planSizes shards size) data))) =
      Except.ok (List.map (fun t => t.vec) data)
    rw [@mapM_map_ok (List Triple) ShardFiles (List (List (List Nat)))
        (shardSlices (planSizes shards size) data) shardFilesOf
        (fun sf => runVecsGen (some sf.vectors)) (fun ts => ts.map fun t => t.vec) hvecs]
    simp only [Except.map]
    rw [flatten_map_map, hflat]
  · rw [hexp]
    show Except.map List.flatten
        (List.mapM (fun sf => runMetasGen (some sf.metas))
          (List.map shardFilesOf (shardSlices (planSizes shards size) data))) =
      Except.ok (List.map (fun t => t.meta) data)
    rw [@mapM_map_ok (List Triple) ShardFiles (List (List Nat))
        (shardSlices (planSizes shards size) data) shardFilesOf
        (fun sf => runMetasGen (some sf.metas)) (fun ts => ts.map fun t => t.meta) hmetas]
    simp only [Except.map]
    rw [flatten_map_map, hflat]

/-- Witness for `c1_roundtrip_amended`: three well-formed records over two
shards round-trip exactly. -/
theorem c1_roundtrip_amended_witness :
    ((1 : Nat) ≤ 2 ∧
      ([⟨[97], [[0, 0, 0, 0, 0, 0, 0, 1]], [1]⟩,
        ⟨[98], [[0, 0, 0, 0, 0, 0, 0, 2]], [2, 2]⟩,
        ⟨[99], [[9, 9, 9, 9, 9, 9, 9, 9], [1, 1, 1, 1, 1, 1, 1, 1]], [3]⟩] :
          List Triple).length = 3 ∧
      ∀ t ∈ ([⟨[97], [[0, 0, 0, 0, 0, 0, 0, 1]], [1]⟩,
        ⟨[98], [[0, 0, 0, 0, 0, 0, 0, 2]], [2, 2]⟩,
        ⟨[99], [[9, 9, 9, 9, 9, 9, 9, 9], [1, 1, 1, 1, 1, 1, 1, 1]], [3]⟩] :
          List Triple), RoundTripWF t) ∧
    ((exportDumpStreaming false 2 3 [⟨[97], [[0, 0, 0, 0, 0, 0, 0, 1]], [1]⟩,
        ⟨[98], [[0, 0, 0, 0, 0, 0, 0, 2]], [2, 2]⟩,
        ⟨[99], [[9, 9, 9, 9, 9, 9, 9, 9], [1, 1, 1, 1, 1, 1, 1, 1]], [3]⟩]).err =
      none ∧
    ((exportDumpStreaming false 2 3 [⟨[97], [[0, 0, 0, 0, 0, 0, 0, 1]], [1]⟩,
        ⟨[98], [[0, 0, 0, 0, 0, 0, 0, 2]], [2, 2]⟩,
        ⟨[99], [[9, 9, 9, 9, 9, 9, 9, 9], [1, 1, 1, 1, 1, 1, 1, 1]], [3]⟩]).written.mapM
        (fun sf => runIdsGen (some sf.ids))).map List.flatten =
      .ok (([⟨[97], [[0, 0, 0, 0, 0, 0, 0, 1]], [1]⟩,
        ⟨[98], [[0, 0, 0, 0, 0, 0, 0, 2]], [2, 2]⟩,
        ⟨[99], [[9, 9, 9, 9, 9, 9, 9, 9], [1, 1, 1, 1, 1, 1, 1, 1]], [3]⟩] :
          List Triple).map fun t => t.id) ∧
    ((exportDumpStreaming false 2 3 [⟨[97], [[0, 0, 0, 0, 0, 0, 0, 1]], [1]⟩,
        ⟨[98], [[0, 0, 0, 0, 0, 0, 0, 2]], [2, 2]⟩,
        ⟨[99], [[9, 9, 9, 9, 9, 9, 9, 9], [1, 1, 1, 1, 1, 1, 1, 1]], [3]⟩]).written.mapM
        (fun sf => runVecsGen (some sf.vectors))).map List.flatten =
      .ok (([⟨[97], [[0, 0, 0, 0, 0, 0, 0, 1]], [1]⟩,
        ⟨[98], [[0, 0, 0, 0, 0, 0, 0, 2]], [2, 2]⟩,
        ⟨[99], [[9, 9, 9, 9, 9, 9, 9, 9], [1, 1, 1, 1, 1, 1, 1, 1]], [3]⟩] :
          List Triple).map fun t => t.vec) ∧
    ((exportDumpStreaming false 2 3 [⟨[97], [[0, 0, 0, 0, 0, 0, 0, 1]], [1]⟩,
        ⟨[98], [[0, 0, 0, 0, 0, 0, 0, 2]], [2, 2]⟩,
        ⟨[99], [[9, 9, 9, 9, 9, 9, 9, 9], [1, 1, 1, 1, 1, 1, 1, 1]], [3]⟩]).written.mapM
        (fun sf => runMetasGen (some sf.metas))).map List.flatten =
      .ok (([⟨[97], [[0, 0, 0, 0, 0, 0, 0, 1]], [1]⟩,
        ⟨[98], [[0, 0, 0, 0, 0, 0, 0, 2]], [2, 2]⟩,
        ⟨[99], [[9, 9, 9, 9, 9, 9, 9, 9], [1, 1, 1, 1, 1, 1, 1, 1]], [3]⟩] :
          List Triple).map fun t => t.meta)) :=
  ⟨⟨by decide, by decide, by decide⟩,
    c1_roundtrip_amended (by decide) (by decide) (by decide)⟩

/-- C3 counterexample: a metas file whose only frame promises `L = 1`
payload byte but holds none. `_metas_gen` silently yields the short
(empty) payload and terminates with no corrupt-data error, contradicting
the claim for `import_metas`. -/
theorem c3_corrupt_frame_counterexample :
    fromBytesLE [1, 0, 0, 0] = 1 ∧
    runMetasGen (some [1, 0, 0, 0]) = .ok [[]] ∧
    (runMetasGen (some [1, 0, 0, 0])).isOk = true := by
  refine ⟨by decide, by decide, by decide⟩

/-- C3 (amended): on a truncated final frame (prefix `L > 0`, fewer than
`L` payload bytes remain) the two import streams differ: `import_metas`
silently yields the short payload and stops (no error), while
`import_vectors` fails — with `np.frombuffer`'s `ValueError`, an
element-size check rather than a length check — exactly when the number
of remaining bytes is not a multiple of 8, and otherwise silently yields
a float64 array shorter than `L / 8`. -/
theorem c3_corrupt_frame_amended {L : Nat} {rest : List Nat}
    (h0 : L ≠ 0) (hfit : L < 256 ^ BYTE_PADDING) (hshort : rest.length < L) :
    runMetasGen (some (leDigits BYTE_PADDING L ++ rest)) = .ok [rest] ∧
    runVecsGen (some (leDigits BYTE_PADDING L ++ rest)) =
      (if rest.length % 8 = 0 then .ok [chunksOf 8 rest]
        else .error .valueError) := by
  constructor
  · simp only [runMetasGen]
    rw [metasLoop_truncated h0 hfit (by omega)]
  · simp only [runVecsGen]
    exact vecsLoop_truncated h0 hfit (by omega)

/-- Witness for `c3_corrupt_frame_amended`: prefix promising 2 bytes over
a single remaining byte. -/
theorem c3_corrupt_frame_amended_witness :
    ((2 : Nat) ≠ 0 ∧ (2 : Nat) < 256 ^ BYTE_PADDING ∧ ([5] : List Nat).length < 2) ∧
    (runMetasGen (some (leDigits BYTE_PADDING 2 ++ [5])) = .ok [[5]] ∧
      runVecsGen (some (leDigits BYTE_PADDING 2 ++ [5])) =
        (if ([5] : List Nat).length % 8 = 0 then .ok [chunksOf 8 [5]]
          else .error .valueError)) :=
  ⟨⟨by decide, by decide, by decide⟩,
    c3_corrupt_frame_amended (by decide) (by decide) (by decide)⟩

/-- C6 counterexample: the claim quantifies over *every* payload of length
`L > 0`, but a payload of `2 ^ 32` bytes is not encoded as a prefix plus
payload at all — `int.to_bytes(4, ...)` raises `OverflowError`. -/
theorem c6_codec_counterexample :
    0 < (List.replicate (2 ^ 32) (0 : Nat)).length ∧
    encodeFrame (List.replicate (2 ^ 32) (0 : Nat)) = .error .overflowError := by
  have hlen : (List.replicate (2 ^ 32) (0 : Nat)).length = 2 ^ 32 :=
    List.length_replicate _ _
  constructor
  · rw [hlen]
    norm_num
  · have h1 : encodeFrame (List.replicate (2 ^ 32) (0 : Nat)) =
        (pyToBytes BYTE_PADDING (List.replicate (2 ^ 32) (0 : Nat)).length).map
          (· ++ List.replicate (2 ^ 32) (0 : Nat)) := rfl
    rw [h1, hlen]
    have h2 : pyToBytes BYTE_PADDING (2 ^ 32) = .error .overflowError := by
      rw [pyToBytes.eq_def, if_neg (by norm_num [BYTE_PADDING])]
    rw [h2]
    rfl

/-- C6 (amended): for payloads with `0 < L < 2 ^ 32` the codec writes
exactly the 4-byte native-order prefix holding `L` followed by the `L`
payload bytes (and the prefix decodes back to `L`); for `L ≥ 2 ^ 32`
encoding raises `OverflowError` instead. Decoding reads a 4-byte prefix,
stops on a zero length or an exhausted file, and otherwise yields the next
`L` bytes — vectors reinterpreted as a float64 array of `L / 8` elements,
metadata as raw bytes. -/
theorem c6_codec_amended (payload big rest m : List Nat) (v : List (List Nat))
    (hpos : 0 < payload.length) (hfit : payload.length < 256 ^ BYTE_PADDING)
    (hbig : 256 ^ BYTE_PADDING ≤ big.length)
    (hm : MetaWF m) (hv : VecWF v) :
    encodeFrame payload = .ok (leDigits BYTE_PADDING payload.length ++ payload) ∧
    (leDigits BYTE_PADDING payload.length).length = BYTE_PADDING ∧
    fromBytesLE (leDigits BYTE_PADDING payload.length) = payload.length ∧
    encodeFrame big = .error .overflowError ∧
    vecsLoop [] = .ok [] ∧
    metasLoop [] = [] ∧
    vecsLoop (leDigits BYTE_PADDING 0 ++ rest) = .ok [] ∧
    metasLoop (leDigits BYTE_PADDING 0 ++ rest) = [] ∧
    metasLoop (metaFrameBytes m ++ rest) = m :: metasLoop rest ∧
    vecsLoop (vecFrameBytes v ++ rest) =
      (match vecsLoop rest with
        | .ok vs => .ok (v :: vs)
        | .error e => .error e) ∧
    frombufferF64 (tobytes v) = .ok v ∧
    v.length = (tobytes v).length / 8 := by
  refine ⟨encodeFrame_ok hfit, length_leDigits _ _, fromBytesLE_leDigits _ _ hfit,
    ?_, rfl, rfl, vecsLoop_zero_frame rest, metasLoop_zero_frame rest,
    metasLoop_frame hm.1 hm.2, vecsLoop_frame hv, frombufferF64_flatten8 hv.2.1, ?_⟩
  · have hnot : ¬ (big.length < 256 ^ BYTE_PADDING) := by omega
    simp [encodeFrame, pyToBytes, hnot, Except.map]
  · rw [tobytes_length hv.2.1, Nat.mul_div_cancel_left _ (by norm_num)]

/-- Witness for `c6_codec_amended` at a one-byte payload, a `2 ^ 32`-byte
payload, a one-element vector and a one-byte metadata record. -/
theorem c6_codec_amended_witness :
    (0 < ([7] : List Nat).length ∧
      ([7] : List Nat).length < 256 ^ BYTE_PADDING ∧
      256 ^ BYTE_PADDING ≤ (List.replicate (2 ^ 32) (0 : Nat)).length ∧
      MetaWF [3] ∧ VecWF [[1, 2, 3, 4, 5, 6, 7, 8]]) ∧
    (encodeFrame [7] = .ok (leDigits BYTE_PADDING ([7] : List Nat).length ++ [7]) ∧
      (leDigits BYTE_PADDING ([7] : List Nat).length).length = BYTE_PADDING ∧
      fromBytesLE (leDigits BYTE_PADDING ([7] : List Nat).length) =
        ([7] : List Nat).length ∧
      encodeFrame (List.replicate (2 ^ 32) (0 : Nat)) = .error .overflowError ∧
      vecsLoop [] = .ok [] ∧
      metasLoop [] = [] ∧
      vecsLoop (leDigits BYTE_PADDING 0 ++ [9]) = .ok [] ∧
      metasLoop (leDigits BYTE_PADDING 0 ++ [9]) = [] ∧
      metasLoop (metaFrameBytes [3] ++ [9]) = [3] :: metasLoop [9] ∧
      vecsLoop (vecFrameBytes [[1, 2, 3, 4, 5, 6, 7, 8]] ++ [9]) =
        (match vecsLoop [9] with
          | .ok vs => .ok ([[1, 2, 3, 4, 5, 6, 7, 8]] :: vs)
          | .error e => .error e) ∧
      frombufferF64 (tobytes [[1, 2, 3, 4, 5, 6, 7, 8]]) =
        .ok [[1, 2, 3, 4, 5, 6, 7, 8]] ∧
      ([[1, 2, 3, 4, 5, 6, 7, 8]] : List (List Nat)).length =
        (tobytes [[1, 2, 3, 4, 5, 6, 7, 8]]).length / 8) :=
  ⟨⟨by decide, by decide,
      by rw [List.length_replicate]; norm_num [BYTE_PADDING], by decide, by decide⟩,
    c6_codec_amended [7] (List.replicate (2 ^ 32) 0) [9] [3]
      [[1, 2, 3, 4, 5, 6, 7, 8]] (by decide) (by decide)
      (by rw [List.length_replicate]; norm_num [BYTE_PADDING]) (by decide) (by decide)⟩

/-- C7 counterexample: the ids file holding the single line `" a\n"`. The
claim says only the trailing newline is stripped, so the id `" a"` (with
its leading space) should come back; the code's `l.strip()` returns `"a"`
instead. -/
theorem c7_ids_strip_counterexample :
    runIdsGen (some [32, 97, 10]) = .ok [[97]] ∧
    ([97] : List Nat) ≠ [32, 97] := by
  refine ⟨by decide, by decide⟩

/-- C7 (amended): every line of a shard's ids file is yielded with *all*
leading and trailing whitespace removed — Python `str.strip()`, whose
whitespace set also covers the information separators, NEL, NBSP and the
Unicode space separators — not just the trailing newline. In particular a
stored line of the form `pre ++ core ++ suf` with whitespace `pre`/`suf`
and strip-invariant `core` is yielded as the bare `core`, its surrounding
whitespace lost. (Ids containing newline or carriage-return code points
are excluded: the line iteration itself splits on them.) -/
theorem c7_ids_strip_amended {lns : List (List Nat)} {pre core suf : List Nat}
    (hlns : ∀ l ∈ lns, (10 : Nat) ∉ l ∧ (13 : Nat) ∉ l)
    (hmem : pre ++ core ++ suf ∈ lns)
    (hpre : ∀ b ∈ pre, isSpaceByte b = true)
    (hsuf : ∀ b ∈ suf, isSpaceByte b = true)
    (hcore : pyStrip core = core) :
    runIdsGen (some ((lns.map idLineBytes).flatten)) = .ok (lns.map pyStrip) ∧
    pyStrip (pre ++ core ++ suf) = core ∧
    core ∈ lns.map pyStrip := by
  have hsand : pyStrip (pre ++ core ++ suf) = core :=
    pyStrip_sandwich hpre hsuf hcore
  refine ⟨?_, hsand, List.mem_map.mpr ⟨pre ++ core ++ suf, hmem, hsand⟩⟩
  simp only [runIdsGen]
  rw [splitLines_flatten_lines lns (fun l hl => (hlns l hl).1), List.map_map]
  congr 1
  apply List.map_congr_left
  intro l hl
  exact pyStrip_append_spaces (by
    intro b hb
    simp at hb
    subst hb
    decide)

/-- Witness for `c7_ids_strip_amended`: a two-line ids file whose first
line is `" a\t\n"`; it is yielded as `"a"`, the second line as `"b"`. -/
theorem c7_ids_strip_amended_witness :
    ((∀ l ∈ ([[32, 97, 9], [98]] : List (List Nat)),
        (10 : Nat) ∉ l ∧ (13 : Nat) ∉ l) ∧
      ([32] : List Nat) ++ [97] ++ [9] ∈ ([[32, 97, 9], [98]] : List (List Nat)) ∧
      (∀ b ∈ ([32] : List Nat), isSpaceByte b = true) ∧
      (∀ b ∈ ([9] : List Nat), isSpaceByte b = true) ∧
      pyStrip [97] = [97]) ∧
    (runIdsGen (some ((([[32, 97, 9], [98]] : List (List Nat)).map
          idLineBytes).flatten)) =
        .ok (([[32, 97, 9], [98]] : List (List Nat)).map pyStrip) ∧
      pyStrip (([32] : List Nat) ++ [97] ++ [9]) = [97] ∧
      ([97] : List Nat) ∈ ([[32, 97, 9], [98]] : List (List Nat)).map pyStrip) :=
  ⟨⟨by decide, by decide, by decide, by decide, by decide⟩,
    c7_ids_strip_amended (by decide) (by decide) (by decide) (by decide) (by decide)⟩

/-- C8 counterexample: an id containing a newline inflates the ids file's
line count — one exported record yields two lines in `ids` but a single
frame in `metas` — so the three files of a successfully exported shard do
not always hold the same number of records. -/
theorem c8_parallel_counterexample :
    (exportDumpStreaming false 1 1
        [⟨[97, 10, 98], [[1, 2, 3, 4, 5, 6, 7, 8]], [5]⟩]).err = none ∧
    (exportDumpStreaming false 1 1
        [⟨[97, 10, 98], [[1, 2, 3, 4, 5, 6, 7, 8]], [5]⟩]).written.map
        (fun sf => (splitLines sf.ids).length) = [2] ∧
    (exportDumpStreaming false 1 1
        [⟨[97, 10, 98], [[1, 2, 3, 4, 5, 6, 7, 8]], [5]⟩]).written.map
        (fun sf => (metasLoop sf.metas).length) = [1] ∧
    (2 : Nat) ≠ 1 := by
  refine ⟨by decide, by decide, by decide, by decide⟩

/-- C8 (amended): after every successful export of records whose ids
contain no newline or carriage return and whose vector and metadata
payloads are nonempty (with frame lengths fitting the 4-byte prefix),
every shard's three files serialize one and the same record list `ts` —
the shard's contiguous slice of the stream — so they hold `ts.length`
records each and the record at ordinal `i` in each file comes from the
`i`-th triple pulled for that shard; the ids sequence yields each of
those ids with its surrounding whitespace stripped. -/
theorem c8_parallel_amended {shards size : Nat} {data : List Triple}
    (hsh : 1 ≤ shards) (hsize : data.length = size)
    (hwf : ∀ t ∈ data, ParallelWF t) :
    ∀ sf ∈ (exportDumpStreaming false shards size data).written,
      ∃ ts ∈ shardSlices (planSizes shards size) data,
        sf = shardFilesOf ts ∧
        runIdsGen (some sf.ids) = .ok (ts.map fun t => pyStrip t.id) ∧
        runVecsGen (some sf.vectors) = .ok (ts.map fun t => t.vec) ∧
        runMetasGen (some sf.metas) = .ok (ts.map fun t => t.meta) ∧
        (splitLines sf.ids).length = ts.length ∧
        (metasLoop sf.metas).length = ts.length := by
  have hexp := exportDumpStreaming_ok hsh hsize.ge
    (fun t ht => parallelWF_sizeOk (hwf t (List.take_subset _ _ ht)))
  intro sf hsf
  rw [hexp] at hsf
  obtain ⟨ts, hts, rfl⟩ := List.mem_map.mp hsf
  have hmem : ∀ t ∈ ts, ParallelWF t :=
    fun t ht => hwf t (shardSlices_mem _ _ _ _ hts ht)
  have hdec := idsFile_decode_strip ts (fun t ht => (hmem t ht).1)
  have hids : runIdsGen (some (shardFilesOf ts).ids) =
      .ok (ts.map fun t => pyStrip t.id) := by
    simp only [runIdsGen, shardFilesOf]
    rw [hdec]
  have hvecs : runVecsGen (some (shardFilesOf ts).vectors) =
      .ok (ts.map fun t => t.vec) := by
    simp only [runVecsGen, shardFilesOf]
    exact vecsLoop_frames (fun t ht => (hmem t ht).2.2.1)
  have hmdec := metasLoop_frames (fun t ht => (hmem t ht).2.2.2)
  have hmetas : runMetasGen (some (shardFilesOf ts).metas) =
      .ok (ts.map fun t => t.meta) := by
    simp only [runMetasGen, shardFilesOf]
    rw [hmdec]
  refine ⟨ts, hts, rfl, hids, hvecs, hmetas, ?_, ?_⟩
  · have hc := congrArg List.length hdec
    simpa [shardFilesOf] using hc
  · have hc := congrArg List.length hmdec
    simpa [shardFilesOf] using hc

/-- Witness for `c8_parallel_amended`: one shard, two records, the first
with a leading space in its id (kept parallel, stripped on import). -/
theorem c8_parallel_amended_witness :
    ((1 : Nat) ≤ 1 ∧
      ([⟨[32, 97], [[1, 0, 0, 0, 0, 0, 0, 0]], [1]⟩,
        ⟨[98], [[2, 0, 0, 0, 0, 0, 0, 0]], [2]⟩] : List Triple).length = 2 ∧
      ∀ t ∈ ([⟨[32, 97], [[1, 0, 0, 0, 0, 0, 0, 0]], [1]⟩,
        ⟨[98], [[2, 0, 0, 0, 0, 0, 0, 0]], [2]⟩] : List Triple), ParallelWF t) ∧
    (∀ sf ∈ (exportDumpStreaming false 1 2
        [⟨[32, 97], [[1, 0, 0, 0, 0, 0, 0, 0]], [1]⟩,
          ⟨[98], [[2, 0, 0, 0, 0, 0, 0, 0]], [2]⟩]).written,
      ∃ ts ∈ shardSlices (planSizes 1 2)
          [⟨[32, 97], [[1, 0, 0, 0, 0, 0, 0, 0]], [1]⟩,
            ⟨[98], [[2, 0, 0, 0, 0, 0, 0, 0]], [2]⟩],
        sf = shardFilesOf ts ∧
        runIdsGen (some sf.ids) = .ok (ts.map fun t => pyStrip t.id) ∧
        runVecsGen (some sf.vectors) = .ok (ts.map fun t => t.vec) ∧
        runMetasGen (some sf.metas) = .ok (ts.map fun t => t.meta) ∧
        (splitLines sf.ids).length = ts.length ∧
        (metasLoop sf.metas).length = ts.length) :=
  ⟨⟨by decide, by decide, by decide⟩,
    c8_parallel_amended (by decide) (by decide) (by decide)⟩

/-- C9 (confirmed): when the record at ordinal position `i` of a shard's
slice has zero-length metadata, `export_dump_streaming` writes a 4-byte
zero length prefix at that position of the shard's metas file, and the
metadata sequence of `import_metas` terminates on it: exactly the first
`i` payloads are yielded, never the empty payload nor any later record of
that shard. -/
theorem c9_empty_meta_sentinel {shards size : Nat} {data pre post : List Triple}
    {t : Triple} {ts : List Triple}
    (hsh : 1 ≤ shards) (hsize : data.length = size)
    (hwf : ∀ x ∈ data, TripleSizeOk x)
    (hts : ts ∈ shardSlices (planSizes shards size) data)
    (hsplit : ts = pre ++ t :: post) (hm : t.meta = [])
    (hpre : ∀ x ∈ pre, x.meta ≠ []) :
    (exportDumpStreaming false shards size data).err = none ∧
    shardFilesOf ts ∈ (exportDumpStreaming false shards size data).written ∧
    (shardFilesOf ts).metas =
      (pre.map fun x => metaFrameBytes x.meta).flatten ++
        ([0, 0, 0, 0] ++ (post.map fun x => metaFrameBytes x.meta).flatten) ∧
    runMetasGen (some (shardFilesOf ts).metas) = .ok (pre.map fun x => x.meta) := by
  have hexp := exportDumpStreaming_ok hsh hsize.ge
    (fun x hx => hwf x (List.take_subset _ _ hx))
  have hmemdata : ∀ x ∈ ts, x ∈ data := fun x hx => shardSlices_mem _ _ _ _ hts hx
  have hfield : (shardFilesOf ts).metas =
      (pre.map fun x => metaFrameBytes x.meta).flatten ++
        ([0, 0, 0, 0] ++ (post.map fun x => metaFrameBytes x.meta).flatten) := by
    have h00 : metaFrameBytes t.meta = [0, 0, 0, 0] := by
      rw [hm]
      rfl
    simp only [shardFilesOf, hsplit, List.map_append, List.map_cons,
      List.flatten_append, List.flatten_cons, h00]
  refine ⟨by rw [hexp], ?_, hfield, ?_⟩
  · rw [hexp]
    exact List.mem_map_of_mem shardFilesOf hts
  · rw [hfield]
    simp only [runMetasGen]
    have hprewf : ∀ x ∈ pre, MetaWF x.meta := by
      intro x hx
      exact ⟨hpre x hx,
        (hwf x (hmemdata x (by rw [hsplit]; exact List.mem_append_left _ hx))).2⟩
    rw [metasLoop_append_frames pre _ hprewf]
    have h04 : ([0, 0, 0, 0] : List Nat) = leDigits BYTE_PADDING 0 := rfl
    rw [h04, metasLoop_zero_frame]
    simp

/-- Witness for `c9_empty_meta_sentinel`: one shard of three records whose
middle record has empty metadata; only the first payload is yielded. -/
theorem c9_empty_meta_sentinel_witness :
    ((1 : Nat) ≤ 1 ∧
      ([⟨[97], [], [1]⟩, ⟨[98], [], []⟩, ⟨[99], [], [7]⟩] : List Triple).length = 3 ∧
      (∀ x ∈ ([⟨[97], [], [1]⟩, ⟨[98], [], []⟩, ⟨[99], [], [7]⟩] : List Triple),
        TripleSizeOk x) ∧
      ([⟨[97], [], [1]⟩, ⟨[98], [], []⟩, ⟨[99], [], [7]⟩] : List Triple) ∈
        shardSlices (planSizes 1 3)
          [⟨[97], [], [1]⟩, ⟨[98], [], []⟩, ⟨[99], [], [7]⟩] ∧
      ([⟨[97], [], [1]⟩, ⟨[98], [], []⟩, ⟨[99], [], [7]⟩] : List Triple) =
        ([⟨[97], [], [1]⟩] : List Triple) ++
          (⟨[98], [], []⟩ : Triple) :: ([⟨[99], [], [7]⟩] : List Triple) ∧
      (⟨[98], [], []⟩ : Triple).meta = [] ∧
      (∀ x ∈ ([⟨[97], [], [1]⟩] : List Triple), x.meta ≠ [])) ∧
    ((exportDumpStreaming false 1 3
        [⟨[97], [], [1]⟩, ⟨[98], [], []⟩, ⟨[99], [], [7]⟩]).err = none ∧
      shardFilesOf [⟨[97], [], [1]⟩, ⟨[98], [], []⟩, ⟨[99], [], [7]⟩] ∈
        (exportDumpStreaming false 1 3
          [⟨[97], [], [1]⟩, ⟨[98], [], []⟩, ⟨[99], [], [7]⟩]).written ∧
      (shardFilesOf [⟨[97], [], [1]⟩, ⟨[98], [], []⟩, ⟨[99], [], [7]⟩]).metas =
        (([⟨[97], [], [1]⟩] : List Triple).map fun x => metaFrameBytes x.meta).flatten ++
          ([0, 0, 0, 0] ++
            (([⟨[99], [], [7]⟩] : List Triple).map fun x => metaFrameBytes x.meta).flatten) ∧
      runMetasGen
          (some (shardFilesOf [⟨[97], [], [1]⟩, ⟨[98], [], []⟩, ⟨[99], [], [7]⟩]).metas) =
        .ok (([⟨[97], [], [1]⟩] : List Triple).map fun x => x.meta)) :=
  ⟨⟨by decide, by decide, by decide, by decide, by decide, by decide, by decide⟩,
    @c9_empty_meta_sentinel 1 3
      [⟨[97], [], [1]⟩, ⟨[98], [], []⟩, ⟨[99], [], [7]⟩]
      [⟨[97], [], [1]⟩] [⟨[99], [], [7]⟩] ⟨[98], [], []⟩
      [⟨[97], [], [1]⟩, ⟨[98], [], []⟩, ⟨[99], [], [7]⟩]
      (by decide) (by decide) (by decide) (by decide)
      (by decide) (by decide) (by decide)⟩

/-- C10 (confirmed): `import_vectors` and `import_metas` touch no file —
they join the shard path and return a pair of unstarted generators no
matter what the directory holds; the not-found error of a missing `ids`,
`vectors` or `metas` file surfaces only when the sequence backed by that
specific file is first pulled, and each of the two sequences of a pair
fails or succeeds according to its own file alone (the pull of one is a
function of that file only, whatever the rest of the directory holds). -/
theorem c10_deferred_errors (p s : List Nat) (sd : ShardDir) :
    importVectors p s = (⟨.idsF, pathJoin p s⟩, ⟨.vectorsF, pathJoin p s⟩) ∧
    importMetas p s = (⟨.idsF, pathJoin p s⟩, ⟨.metasF, pathJoin p s⟩) ∧
    ((runIdsGen sd.idsFile = .error (.fileNotFound .idsF)) ↔ sd.idsFile = none) ∧
    ((runVecsGen sd.vectorsFile = .error (.fileNotFound .vectorsF)) ↔
      sd.vectorsFile = none) ∧
    ((runMetasGen sd.metasFile = .error (.fileNotFound .metasF)) ↔
      sd.metasFile = none) := by
  refine ⟨rfl, rfl, ?_, ?_, ?_⟩
  · cases sd.idsFile with
    | none => simp [runIdsGen]
    | some c => simp [runIdsGen]
  · cases sd.vectorsFile with
    | none => simp [runVecsGen]
    | some c =>
      simp only [runVecsGen]
      constructor
      · intro hc
        exact absurd hc (vecsLoopF_not_found c.length c .vectorsF)
      · intro hc
        simp at hc
  · cases sd.metasFile with
    | none => simp [runMetasGen]
    | some c => simp [runMetasGen]
